import Mathlib

/-
  Verification of the client-side behavior layer of the E-Portfolio repository.

  The core being verified is the hero typing/erasing text animation
  (functions `type` and `erase` in src/app.js, duplicated in the fuller
  variant src/unnamed/part_000), plus the contact-form submission logic
  (FormManager in src/app.js).

  Strings are modelled as `List Char`.  The mutable module-level variables
  `textIndex`, `charIndex` and the text sink content `textContent` are
  gathered into an explicit `AnimState`.  Each animation step returns the
  successor state together with the callback it schedules via `setTimeout`
  and the delay in milliseconds.
-/

namespace Portfolio

/-- State of the typing animation: the module-level counters `textIndex`
and `charIndex` plus the current `textContent` of the typed-text span. -/
structure AnimState where
  textIndex : Nat
  charIndex : Nat
  rendered : List Char
deriving DecidableEq

/-- Which callback a step passes to `setTimeout`: the `type` function or
the `erase` function. -/
inductive NextFun
  | typeF
  | eraseF
deriving DecidableEq

/-- A scheduled step: the callback and the delay in milliseconds. -/
structure Sched where
  nf : NextFun
  delay : Nat
deriving DecidableEq

/-- Source constant `const typingDelay = 150`. -/
def typingDelay : Nat := 150

/-- Source constant `const erasingDelay = 100`. -/
def erasingDelay : Nat := 100

/-- Source constant `const newTextDelay = 2000`. -/
def newTextDelay : Nat := 2000

/-- JavaScript `String.prototype.charAt`: the one-character string at
index `i`, or the empty string when `i` is out of range. -/
def charAt (l : List Char) (i : Nat) : List Char :=
  l[i]?.toList

/-- The current playlist entry `texts[textIndex]`. -/
def curText (texts : List (List Char)) (s : AnimState) : List Char :=
  texts.getD s.textIndex []

/-- Embedding of `function type()` from src/app.js (lines 339-347):
if `charIndex < texts[textIndex].length`, append
`texts[textIndex].charAt(charIndex)` to the sink, increment `charIndex`
and schedule `type` after `typingDelay`; otherwise schedule `erase`
after `newTextDelay`. -/
def type (texts : List (List Char)) (s : AnimState) : AnimState × Sched :=
  if s.charIndex < (curText texts s).length then
    ({ s with
        rendered := s.rendered ++ charAt (curText texts s) s.charIndex
        charIndex := s.charIndex + 1 },
     ⟨NextFun.typeF, typingDelay⟩)
  else
    (s, ⟨NextFun.eraseF, newTextDelay⟩)

/-- Embedding of `function erase()` from src/app.js (lines 349-359):
if `charIndex > 0`, set the sink to `texts[textIndex].substring(0, charIndex - 1)`,
decrement `charIndex` and schedule `erase` after `erasingDelay`; otherwise
increment `textIndex`, reset it to 0 when it reaches `texts.length`, and
schedule `type` after `typingDelay + 1100`. -/
def erase (texts : List (List Char)) (s : AnimState) : AnimState × Sched :=
  if s.charIndex > 0 then
    ({ s with
        rendered := (curText texts s).take (s.charIndex - 1)
        charIndex := s.charIndex - 1 },
     ⟨NextFun.eraseF, erasingDelay⟩)
  else
    ({ s with
        textIndex := if s.textIndex + 1 ≥ texts.length then 0 else s.textIndex + 1 },
     ⟨NextFun.typeF, typingDelay + 1100⟩)

/-- One step of the self-scheduling chain: run the callback that is
currently pending and move to the callback it schedules. -/
def step (texts : List (List Char)) : NextFun × AnimState → NextFun × AnimState
  | (NextFun.typeF, s) => ((type texts s).2.nf, (type texts s).1)
  | (NextFun.eraseF, s) => ((erase texts s).2.nf, (erase texts s).1)

/-- Apostrophe character, used inside the first playlist entry. -/
def apos : Char := Char.ofNat 39

/-- The playlist `const texts` of src/app.js (lines 328-331). -/
def texts0 : List (List Char) :=
  [[ 'H', 'i', ',', ' ', 'I', apos, 'm', ' ', 'J', 'a', 'c', 'k', 's', 'o', 'n',
     ' ', 'K', 'o', 'v', 'a', 'r', 'i', 'k'],
   [ 'W', 'e', 'l', 'c', 'o', 'm', 'e', ' ', 'T', 'o', ' ', 'M', 'y', ' ',
     'P', 'o', 'r', 't', 'f', 'o', 'l', 'i', 'o']]

/-- Initial animation state: `textIndex = 0`, `charIndex = 0`, empty sink. -/
def initState : AnimState := ⟨0, 0, []⟩

/-- Embedding of the start site of src/app.js (lines 367-369):
`if (domCache.typedTextSpan) { type(); }`.  When the sink is missing the
result is `none`: no step executes and none is scheduled; when it exists
the first `type` step runs from the initial state. -/
def start (sinkExists : Bool) : Option (AnimState × Sched) :=
  if sinkExists then some (type texts0 initState) else none

/-- The rendered-text invariant of the spec:
`renderedText == Playlist[textIndex][0:charIndex]`. -/
def RenderInv (texts : List (List Char)) (s : AnimState) : Prop :=
  s.rendered = (curText texts s).take s.charIndex

/-- The index invariants of the spec:
`0 <= textIndex < len(Playlist)` and `0 <= charIndex <= len(Playlist[textIndex])`
(the lower bounds are automatic for `Nat`). -/
def Inv (texts : List (List Char)) (s : AnimState) : Prop :=
  s.textIndex < texts.length ∧ s.charIndex ≤ (curText texts s).length

/-- The playlist of the boundary scenario with a single entry. -/
def texts1 : List (List Char) := [[ 'H', 'i']]

namespace Part0

/-- Source constant `const typingDelay = 150` of src/unnamed/part_000. -/
def typingDelay : Nat := 150

/-- Source constant `const erasingDelay = 100` of src/unnamed/part_000. -/
def erasingDelay : Nat := 100

/-- Source constant `const newTextDelay = 2000` of src/unnamed/part_000. -/
def newTextDelay : Nat := 2000

/-- The playlist `const texts` of src/unnamed/part_000 (lines 645-648). -/
def texts : List (List Char) :=
  [[ 'H', 'i', ',', ' ', 'I', apos, 'm', ' ', 'J', 'a', 'c', 'k', 's', 'o', 'n',
     ' ', 'K', 'o', 'v', 'a', 'r', 'i', 'k'],
   [ 'W', 'e', 'l', 'c', 'o', 'm', 'e', ' ', 'T', 'o', ' ', 'M', 'y', ' ',
     'P', 'o', 'r', 't', 'f', 'o', 'l', 'i', 'o']]

/-- Embedding of `function type()` from src/unnamed/part_000 (lines
660-668).  The only textual difference from the src/app.js variant is
that the sink is the locally cached `typedTextSpan` instead of
`domCache.typedTextSpan`. -/
def type (texts : List (List Char)) (s : AnimState) : AnimState × Sched :=
  if s.charIndex < (curText texts s).length then
    ({ s with
        rendered := s.rendered ++ charAt (curText texts s) s.charIndex
        charIndex := s.charIndex + 1 },
     ⟨NextFun.typeF, Part0.typingDelay⟩)
  else
    (s, ⟨NextFun.eraseF, Part0.newTextDelay⟩)

/-- Embedding of `function erase()` from src/unnamed/part_000 (lines
670-680), the same logic as the src/app.js variant modulo the cached
sink. -/
def erase (texts : List (List Char)) (s : AnimState) : AnimState × Sched :=
  if s.charIndex > 0 then
    ({ s with
        rendered := (curText texts s).take (s.charIndex - 1)
        charIndex := s.charIndex - 1 },
     ⟨NextFun.eraseF, Part0.erasingDelay⟩)
  else
    ({ s with
        textIndex := if s.textIndex + 1 ≥ texts.length then 0 else s.textIndex + 1 },
     ⟨NextFun.typeF, Part0.typingDelay + 1100⟩)

end Part0

/-- Number of steps in one full type-then-erase cycle of the entry at
index `t`: its characters are typed one per step, one boundary step
hands over to the erase phase, the characters are erased one per step,
and one boundary step advances `textIndex`. -/
def cycleSteps (texts : List (List Char)) (t : Nat) : Nat :=
  2 * (texts.getD t []).length + 2

/-- The canonical start-of-cycle configuration at playlist index `t`:
the `type` callback pending, nothing rendered. -/
def typingStart (t : Nat) : NextFun × AnimState := (NextFun.typeF, ⟨t, 0, []⟩)

/-- Successor of a playlist index: advance by one, wrapping. -/
def nextIndex (texts : List (List Char)) (t : Nat) : Nat :=
  (t + 1) % texts.length

/-- Total number of steps in `k` consecutive full cycles starting at
playlist index `t`. -/
def multiCycleSteps (texts : List (List Char)) : Nat → Nat → Nat
  | 0, _ => 0
  | k + 1, t => multiCycleSteps texts k (nextIndex texts t) + cycleSteps texts t

/-- Membership in the JavaScript regular-expression class `\s`
(ECMAScript WhiteSpace and LineTerminator code points). -/
def isJsSpace (c : Char) : Bool :=
  c.toNat = 0x9 ∨ c.toNat = 0xA ∨ c.toNat = 0xB ∨ c.toNat = 0xC ∨ c.toNat = 0xD
    ∨ c.toNat = 0x20 ∨ c.toNat = 0xA0 ∨ c.toNat = 0x1680
    ∨ (0x2000 ≤ c.toNat ∧ c.toNat ≤ 0x200A)
    ∨ c.toNat = 0x2028 ∨ c.toNat = 0x2029 ∨ c.toNat = 0x202F ∨ c.toNat = 0x205F
    ∨ c.toNat = 0x3000 ∨ c.toNat = 0xFEFF

/-- JavaScript `String.prototype.trim`: strip the whitespace class from
both ends. -/
def trimJS (s : List Char) : List Char :=
  ((s.dropWhile isJsSpace).reverse.dropWhile isJsSpace).reverse

/-- A character allowed inside the segments of the email pattern:
anything matching `[^\s@]`. -/
def okChar (c : Char) : Bool :=
  !(isJsSpace c) && c ≠ '@'

/-- The email pattern of FormManager, `/^[^\s@]+@[^\s@]+\.[^\s@]+$/`:
the string decomposes as `a ++ "@" ++ b ++ "." ++ c` with `a`, `b`, `c`
non-empty and free of whitespace and `@`.  Since `a`, `b`, `c` may not
contain `@`, the split is necessarily at the first `@`, and the dot may
be any dot of `b ++ "." ++ c` that is neither its first nor its last
character. -/
def emailMatches (s : List Char) : Bool :=
  let a := s.takeWhile (fun c => c ≠ '@')
  match s.dropWhile (fun c => c ≠ '@') with
  | [] => false
  | _ :: d =>
      !a.isEmpty && a.all okChar && d.all okChar
        && ((d.drop 1).dropLast.contains '.')

/-- The four fields of the contact form. -/
inductive FieldName
  | name
  | email
  | subject
  | message
deriving DecidableEq

/-- A validation rule of FormManager: an optional minimum length and an
optional pattern (the error message strings are not modelled). -/
structure Rule where
  minLength : Option Nat
  pattern : Option (List Char → Bool)

/-- The table `this.validationRules` of FormManager (src/app.js lines
156-164). -/
def validationRules : FieldName → Rule
  | FieldName.name => ⟨some 2, none⟩
  | FieldName.email => ⟨none, some emailMatches⟩
  | FieldName.subject => ⟨some 5, none⟩
  | FieldName.message => ⟨some 10, none⟩

/-- Embedding of `FormManager.validateField` (src/app.js lines 192-219):
trim the raw value, then fail when a `minLength` rule is present and the
trimmed value is shorter, otherwise fail when a `pattern` rule is
present and does not match, otherwise pass. -/
def validateField (f : FieldName) (raw : List Char) : Bool :=
  let value := trimJS raw
  let rule := validationRules f
  let minFail : Bool :=
    match rule.minLength with
    | some m => value.length < m
    | none => false
  let patFail : Bool :=
    match rule.pattern with
    | some p => !(p value)
    | none => false
  if minFail then false
  else if patFail then false
  else true

/-- The raw values of the four contact-form fields at submission time. -/
structure ContactData where
  name : List Char
  email : List Char
  subject : List Char
  message : List Char

/-- All four fields pass `validateField`, as accumulated over
`form.querySelectorAll` in `handleFormSubmission`. -/
def allFieldsValid (d : ContactData) : Bool :=
  validateField FieldName.name d.name
    && validateField FieldName.email d.email
    && validateField FieldName.subject d.subject
    && validateField FieldName.message d.message

/-- Kind of banner passed to `FormManager.showNotification`. -/
inductive NotifType
  | success
  | error
  | info
deriving DecidableEq

/-- A displayed banner: its kind and the delay after which the auto-hide
timer fires. -/
structure Banner where
  ntype : NotifType
  autoHideDelay : Nat
deriving DecidableEq

/-- Embedding of `FormManager.showNotification` (src/app.js lines
280-316): every banner is scheduled to auto-hide after 5000 ms. -/
def showNotification (t : NotifType) : Banner :=
  ⟨t, 5000⟩

/-- Observable outcome of `handleFormSubmission`: whether a submission
was simulated, the delay of the simulated submission if any, and the
banner that is shown. -/
structure SubmissionOutcome where
  submitted : Bool
  submitDelay : Option Nat
  banner : Banner
deriving DecidableEq

/-- Embedding of `FormManager.handleFormSubmission` (src/app.js lines
241-278): validate all fields; when any fails, show the error banner
and return without submitting; otherwise simulate the submission with a
`setTimeout` of 2000 ms, after which the success banner is shown. -/
def handleFormSubmission (d : ContactData) : SubmissionOutcome :=
  if !(allFieldsValid d) then
    ⟨false, none, showNotification NotifType.error⟩
  else
    ⟨true, some 2000, showNotification NotifType.success⟩

theorem take_append_charAt (l : List Char) (i : Nat) :
    l.take i ++ charAt l i = l.take (i + 1) := by
  rw [charAt, List.take_succ]

/-- C1: for every reachable state of the typing animation, immediately
after any type or erase step completes, the displayed text equals the
prefix of the current playlist entry of length `charIndex`:
`renderedText == Playlist[textIndex][0:charIndex]`.  Formalised as:
the invariant holds at the initial state and is preserved by both the
`type` step and the `erase` step. -/
theorem rendered_prefix_invariant (texts : List (List Char)) (s : AnimState)
    (h : RenderInv texts s) :
    RenderInv texts initState
    ∧ RenderInv texts (type texts s).1
    ∧ RenderInv texts (erase texts s).1 := by
  rw [RenderInv] at h
  refine ⟨by simp [RenderInv, initState], ?_, ?_⟩
  · rw [RenderInv]
    unfold type
    split
    · show s.rendered ++ charAt (curText texts s) s.charIndex
        = (curText texts s).take (s.charIndex + 1)
      rw [h, take_append_charAt]
    · exact h
  · rw [RenderInv]
    unfold erase
    split
    · rfl
    · rename_i hc
      have h0 : s.charIndex = 0 := by omega
      rw [h0] at h
      simp only [List.take_zero] at h
      simp [curText, h0, h]

/-- Witness for C1 at the concrete state reached after one typing step of
the single-entry playlist. -/
theorem rendered_prefix_invariant_witness :
    RenderInv texts1 ⟨0, 1, [ 'H']⟩
    ∧ (RenderInv texts1 initState
       ∧ RenderInv texts1 (type texts1 ⟨0, 1, [ 'H']⟩).1
       ∧ RenderInv texts1 (erase texts1 ⟨0, 1, [ 'H']⟩).1) :=
  ⟨rfl, rendered_prefix_invariant texts1 ⟨0, 1, [ 'H']⟩ rfl⟩

/-- C2: when `charIndex < len(Playlist[textIndex])`, one typing step
appends exactly the character `Playlist[textIndex][charIndex]` to the
displayed text, increments `charIndex` by 1, and schedules the next
`type` step after `typingDelay` (150 ms); when
`charIndex == len(Playlist[textIndex])`, the typing step leaves the
state unchanged and schedules the erase phase after `newTextDelay`
(2000 ms). -/
theorem typing_step_spec (texts : List (List Char)) (s : AnimState) :
    (s.charIndex < (curText texts s).length →
      ∃ c, (curText texts s)[s.charIndex]? = some c ∧
        type texts s =
          ({ textIndex := s.textIndex, charIndex := s.charIndex + 1,
             rendered := s.rendered ++ [c] },
           ⟨NextFun.typeF, 150⟩))
    ∧ (s.charIndex = (curText texts s).length →
        type texts s = (s, ⟨NextFun.eraseF, 2000⟩)) := by
  constructor
  · intro h
    refine ⟨(curText texts s).get ⟨s.charIndex, h⟩, ?_, ?_⟩
    · exact List.getElem?_eq_getElem h
    · simp [type, if_pos h, charAt, List.getElem?_eq_getElem h, typingDelay]
  · intro h
    have hc : ¬ s.charIndex < (curText texts s).length := by omega
    simp [type, if_neg hc, newTextDelay]

/-- Witness for C2 at the initial state over the single-entry playlist. -/
theorem typing_step_spec_witness :
    initState.charIndex < (curText texts1 initState).length
    ∧ (∃ c, (curText texts1 initState)[initState.charIndex]? = some c ∧
        type texts1 initState =
          ({ textIndex := initState.textIndex, charIndex := initState.charIndex + 1,
             rendered := initState.rendered ++ [c] },
           ⟨NextFun.typeF, 150⟩)) :=
  ⟨by decide, (typing_step_spec texts1 initState).1 (by decide)⟩

/-- C3: when `charIndex > 0`, one erasing step truncates the displayed
text to its first `charIndex - 1` characters, decrements `charIndex`
by 1, and schedules the next `erase` step after `erasingDelay` (100 ms);
when `charIndex == 0`, the erasing step advances
`textIndex` to `(textIndex + 1) mod len(Playlist)` and schedules the
next typing phase after `typingDelay + 1100` ms.  The truncation claim
speaks about the displayed text, so the first part assumes the rendered
invariant; the wrap-around claim assumes `textIndex` is in range. -/
theorem erasing_step_spec (texts : List (List Char)) (s : AnimState) :
    (s.charIndex > 0 → RenderInv texts s →
      erase texts s =
        ({ textIndex := s.textIndex, charIndex := s.charIndex - 1,
           rendered := s.rendered.take (s.charIndex - 1) },
         ⟨NextFun.eraseF, 100⟩))
    ∧ (s.charIndex = 0 → s.textIndex < texts.length →
      erase texts s =
        ({ s with textIndex := (s.textIndex + 1) % texts.length },
         ⟨NextFun.typeF, typingDelay + 1100⟩)) := by
  constructor
  · intro h hr
    rw [RenderInv] at hr
    simp only [erase, if_pos h, erasingDelay]
    refine congrArg (fun r => (AnimState.mk s.textIndex (s.charIndex - 1) r, Sched.mk NextFun.eraseF 100)) ?_
    rw [hr, List.take_take]
    congr 1
    omega
  · intro h0 ht
    have hc : ¬ s.charIndex > 0 := by omega
    simp only [erase, if_neg hc]
    rcases Nat.lt_or_ge (s.textIndex + 1) texts.length with h1 | h1
    · rw [if_neg (by omega), Nat.mod_eq_of_lt h1]
    · have he : s.textIndex + 1 = texts.length := by omega
      rw [if_pos (by omega), he, Nat.mod_self]

/-- Witness for C3 at the fully-typed state of the single-entry playlist. -/
theorem erasing_step_spec_witness :
    ((0 : Nat) < 2 ∧ RenderInv texts1 ⟨0, 2, [ 'H', 'i']⟩)
    ∧ erase texts1 ⟨0, 2, [ 'H', 'i']⟩ =
        ({ textIndex := 0, charIndex := 2 - 1,
           rendered := List.take (2 - 1) [ 'H', 'i'] },
         ⟨NextFun.eraseF, 100⟩) :=
  ⟨⟨by decide, rfl⟩, (erasing_step_spec texts1 ⟨0, 2, [ 'H', 'i']⟩).1 (by decide) rfl⟩

/-- C5: every type and erase step preserves the invariants
`0 <= textIndex < len(Playlist)` (wrapping to 0 after the last entry)
and `0 <= charIndex <= len(Playlist[textIndex])`: `charIndex` never
exceeds the current string during typing and never goes negative during
erasing (the lower bounds are automatic over `Nat`). -/
theorem indices_in_range (texts : List (List Char)) (s : AnimState)
    (h : Inv texts s) :
    Inv texts (type texts s).1 ∧ Inv texts (erase texts s).1 := by
  obtain ⟨ht, hc⟩ := h
  constructor
  · unfold Inv type
    split
    · rename_i hlt
      exact ⟨ht, hlt⟩
    · exact ⟨ht, hc⟩
  · unfold Inv erase
    split
    · exact ⟨ht, by simp [curText] at hc ⊢; omega⟩
    · rename_i hgt
      have h0 : s.charIndex = 0 := by omega
      refine ⟨?_, by simp [h0]⟩
      show (if s.textIndex + 1 ≥ texts.length then 0 else s.textIndex + 1) < texts.length
      split <;> omega

/-- Witness for C5 at the initial state over the single-entry playlist. -/
theorem indices_in_range_witness :
    Inv texts1 initState
    ∧ (Inv texts1 (type texts1 initState).1 ∧ Inv texts1 (erase texts1 initState).1) :=
  ⟨⟨by decide, by decide⟩, indices_in_range texts1 initState ⟨by decide, by decide⟩⟩

/-- C10: the two boundary steps leave the displayed text unchanged: a
typing step taken with `charIndex == len(Playlist[textIndex])` mutates
neither `renderedText` nor `charIndex` nor `textIndex`, and an erasing
step taken with `charIndex == 0` changes only `textIndex` while
`renderedText` (which the rendered invariant forces to be the empty
string there) and `charIndex` stay unchanged. -/
theorem boundary_steps_frame (texts : List (List Char)) (s : AnimState) :
    (s.charIndex = (curText texts s).length → (type texts s).1 = s)
    ∧ (s.charIndex = 0 →
        (erase texts s).1.rendered = s.rendered
        ∧ (erase texts s).1.charIndex = s.charIndex
        ∧ (erase texts s).1.textIndex =
            (if s.textIndex + 1 ≥ texts.length then 0 else s.textIndex + 1)
        ∧ (RenderInv texts s → s.rendered = [])) := by
  constructor
  · intro h
    have hc : ¬ s.charIndex < (curText texts s).length := by omega
    simp [type, if_neg hc]
  · intro h0
    have hc : ¬ s.charIndex > 0 := by omega
    refine ⟨by simp [erase, if_neg hc], by simp [erase, if_neg hc], by simp [erase, if_neg hc], ?_⟩
    intro hr
    rw [RenderInv, h0] at hr
    simpa using hr

/-- Witness for C10: the erase boundary taken at the empty initial state
of the single-entry playlist. -/
theorem boundary_steps_frame_witness :
    initState.charIndex = 0
    ∧ ((erase texts1 initState).1.rendered = initState.rendered
       ∧ (erase texts1 initState).1.charIndex = initState.charIndex
       ∧ (erase texts1 initState).1.textIndex =
           (if initState.textIndex + 1 ≥ texts1.length then 0 else initState.textIndex + 1)
       ∧ (RenderInv texts1 initState → initState.rendered = [])) :=
  ⟨rfl, (boundary_steps_frame texts1 initState).2 rfl⟩

/-- C7: for the single-entry playlist `["Hi"]` started at
`textIndex=0, charIndex=0`, the erase phase is not skipped: two typing
steps render "Hi", the boundary typing step hands over to the erase
phase, two erasing steps render "H" then "", the erase-complete step
wraps `textIndex` back to 0, and typing restarts from the empty
string. -/
theorem single_entry_scenario :
    (step texts1)^[2] (NextFun.typeF, initState)
        = (NextFun.typeF, ⟨0, 2, [ 'H', 'i']⟩)
    ∧ (step texts1)^[3] (NextFun.typeF, initState)
        = (NextFun.eraseF, ⟨0, 2, [ 'H', 'i']⟩)
    ∧ (step texts1)^[4] (NextFun.typeF, initState)
        = (NextFun.eraseF, ⟨0, 1, [ 'H']⟩)
    ∧ (step texts1)^[5] (NextFun.typeF, initState)
        = (NextFun.eraseF, ⟨0, 0, []⟩)
    ∧ (step texts1)^[6] (NextFun.typeF, initState)
        = (NextFun.typeF, ⟨0, 0, []⟩)
    ∧ (step texts1)^[7] (NextFun.typeF, initState)
        = (NextFun.typeF, ⟨0, 1, [ 'H']⟩) := by
  decide

/-- C4: when the target text sink does not exist, `start` is a silent
no-op: no animation step is scheduled or executed; when the sink exists,
the cycle begins by running the `type` function from the initial state
`textIndex=0, charIndex=0`. -/
theorem start_sink_guard :
    start false = none
    ∧ start true = some (type texts0 initState)
    ∧ initState = ⟨0, 0, []⟩ :=
  ⟨rfl, rfl, rfl⟩

/-- C8: the two implementations of the typing animation (src/app.js and
src/unnamed/part_000) are behaviorally identical: they use the same
playlist, and for every playlist and state their type steps produce the
same successor state, rendered text and schedule, and likewise their
erase steps. -/
theorem variants_equivalent :
    Part0.texts = texts0
    ∧ (∀ (texts : List (List Char)) (s : AnimState),
        Part0.type texts s = type texts s)
    ∧ (∀ (texts : List (List Char)) (s : AnimState),
        Part0.erase texts s = erase texts s) :=
  ⟨rfl, fun _ _ => rfl, fun _ _ => rfl⟩

theorem step_typeF (texts : List (List Char)) (s : AnimState) :
    step texts (NextFun.typeF, s) = ((type texts s).2.nf, (type texts s).1) := rfl

theorem step_eraseF (texts : List (List Char)) (s : AnimState) :
    step texts (NextFun.eraseF, s) = ((erase texts s).2.nf, (erase texts s).1) := rfl

theorem type_lt_eq (texts : List (List Char)) (s : AnimState)
    (h : s.charIndex < (curText texts s).length) :
    type texts s =
      ({ s with
          rendered := s.rendered ++ charAt (curText texts s) s.charIndex
          charIndex := s.charIndex + 1 },
       ⟨NextFun.typeF, typingDelay⟩) := by
  unfold type
  rw [if_pos h]

theorem type_ge_eq (texts : List (List Char)) (s : AnimState)
    (h : ¬ s.charIndex < (curText texts s).length) :
    type texts s = (s, ⟨NextFun.eraseF, newTextDelay⟩) := by
  unfold type
  rw [if_neg h]

theorem erase_pos_eq (texts : List (List Char)) (s : AnimState)
    (h : s.charIndex > 0) :
    erase texts s =
      ({ s with
          rendered := (curText texts s).take (s.charIndex - 1)
          charIndex := s.charIndex - 1 },
       ⟨NextFun.eraseF, erasingDelay⟩) := by
  unfold erase
  rw [if_pos h]

theorem erase_zero_eq (texts : List (List Char)) (s : AnimState)
    (h : s.charIndex = 0) :
    erase texts s =
      ({ s with textIndex := if s.textIndex + 1 ≥ texts.length then 0 else s.textIndex + 1 },
       ⟨NextFun.typeF, typingDelay + 1100⟩) := by
  unfold erase
  rw [if_neg (by omega)]

theorem typing_run (texts : List (List Char)) (t : Nat) :
    ∀ k i, i + k ≤ (texts.getD t []).length →
    (step texts)^[k] (NextFun.typeF, ⟨t, i, (texts.getD t []).take i⟩)
      = (NextFun.typeF, ⟨t, i + k, (texts.getD t []).take (i + k)⟩) := by
  intro k
  induction k with
  | zero => intro i _; simp
  | succ k ih =>
    intro i hik
    rw [Function.iterate_succ_apply', ih i (by omega), step_typeF,
        type_lt_eq texts ⟨t, i + k, (texts.getD t []).take (i + k)⟩
          (by show i + k < (texts.getD t []).length; omega)]
    simp only [curText, take_append_charAt]
    rfl

theorem erasing_run (texts : List (List Char)) (t : Nat) :
    ∀ i, (step texts)^[i] (NextFun.eraseF, ⟨t, i, (texts.getD t []).take i⟩)
      = (NextFun.eraseF, ⟨t, 0, []⟩) := by
  intro i
  induction i with
  | zero => simp
  | succ i ih =>
    rw [Function.iterate_succ_apply, step_eraseF,
        erase_pos_eq texts ⟨t, i + 1, (texts.getD t []).take (i + 1)⟩ (Nat.succ_pos i)]
    show (step texts)^[i] (NextFun.eraseF, ⟨t, i, (texts.getD t []).take i⟩)
        = (NextFun.eraseF, ⟨t, 0, []⟩)
    exact ih

theorem step_type_boundary (texts : List (List Char)) (t : Nat) (r : List Char) :
    step texts (NextFun.typeF, ⟨t, (texts.getD t []).length, r⟩)
      = (NextFun.eraseF, ⟨t, (texts.getD t []).length, r⟩) := by
  rw [step_typeF,
      type_ge_eq texts ⟨t, (texts.getD t []).length, r⟩
        (by show ¬ (texts.getD t []).length < (texts.getD t []).length; omega)]

theorem step_erase_boundary (texts : List (List Char)) (t : Nat) (r : List Char) :
    step texts (NextFun.eraseF, ⟨t, 0, r⟩)
      = (NextFun.typeF, ⟨if t + 1 ≥ texts.length then 0 else t + 1, 0, r⟩) := by
  rw [step_eraseF, erase_zero_eq texts ⟨t, 0, r⟩ rfl]

theorem one_cycle (texts : List (List Char)) (t : Nat) (h : t < texts.length) :
    (step texts)^[cycleSteps texts t] (typingStart t)
      = typingStart (nextIndex texts t) := by
  have h1 : (step texts)^[(texts.getD t []).length] (NextFun.typeF, (⟨t, 0, []⟩ : AnimState))
      = (NextFun.typeF, ⟨t, (texts.getD t []).length,
          (texts.getD t []).take (texts.getD t []).length⟩) := by
    simpa using typing_run texts t (texts.getD t []).length 0 (by omega)
  have h2 : step texts (NextFun.typeF, (⟨t, (texts.getD t []).length,
        (texts.getD t []).take (texts.getD t []).length⟩ : AnimState))
      = (NextFun.eraseF, ⟨t, (texts.getD t []).length,
          (texts.getD t []).take (texts.getD t []).length⟩) :=
    step_type_boundary texts t _
  have h3 : (step texts)^[(texts.getD t []).length]
        (NextFun.eraseF, (⟨t, (texts.getD t []).length,
          (texts.getD t []).take (texts.getD t []).length⟩ : AnimState))
      = (NextFun.eraseF, ⟨t, 0, []⟩) := erasing_run texts t _
  have hw : (if t + 1 ≥ texts.length then 0 else t + 1) = (t + 1) % texts.length := by
    rcases Nat.lt_or_ge (t + 1) texts.length with h5 | h5
    · rw [if_neg (by omega), Nat.mod_eq_of_lt h5]
    · have h6 : t + 1 = texts.length := by omega
      rw [if_pos (by omega), h6, Nat.mod_self]
  have h4 : step texts (NextFun.eraseF, (⟨t, 0, []⟩ : AnimState))
      = (NextFun.typeF, ⟨(t + 1) % texts.length, 0, []⟩) := by
    rw [step_erase_boundary, hw]
  have hsteps : cycleSteps texts t
      = 1 + ((texts.getD t []).length + (1 + (texts.getD t []).length)) := by
    unfold cycleSteps
    omega
  unfold typingStart nextIndex
  rw [hsteps, Function.iterate_add_apply, Function.iterate_add_apply,
      Function.iterate_add_apply]
  simp only [Function.iterate_one]
  rw [h1, h2, h3, h4]

theorem multi_cycle (texts : List (List Char)) :
    ∀ (k t : Nat), t < texts.length →
    (step texts)^[multiCycleSteps texts k t] (typingStart t)
      = typingStart ((nextIndex texts)^[k] t) := by
  intro k
  induction k with
  | zero => intro t _; simp [multiCycleSteps]
  | succ k ih =>
    intro t ht
    have h0 : 0 < texts.length := by omega
    have hnext : nextIndex texts t < texts.length := Nat.mod_lt _ h0
    rw [show multiCycleSteps texts (k + 1) t
          = multiCycleSteps texts k (nextIndex texts t) + cycleSteps texts t from rfl,
        Function.iterate_add_apply, one_cycle texts t ht,
        ih (nextIndex texts t) hnext, Function.iterate_succ_apply]

theorem nextIndex_iterate (texts : List (List Char)) (h0 : 0 < texts.length) :
    ∀ (k t : Nat), t < texts.length →
    (nextIndex texts)^[k] t = (t + k) % texts.length := by
  intro k
  induction k with
  | zero => intro t ht; simpa using (Nat.mod_eq_of_lt ht).symm
  | succ k ih =>
    intro t ht
    rw [Function.iterate_succ_apply, ih (nextIndex texts t) (Nat.mod_lt _ h0)]
    show ((t + 1) % texts.length + k) % texts.length = (t + (k + 1)) % texts.length
    rw [Nat.mod_add_mod]
    congr 1
    omega

/-- C6: the cycle is periodic.  For every playlist and every in-range
start index `t`: one full type-then-erase cycle of one string advances
`textIndex` by exactly 1 modulo the playlist length and returns to the
canonical start-of-cycle configuration; after `len(Playlist)` full
cycles the configuration (and with it `textIndex`) returns to its
original value; and consequently the whole sequence of configurations,
in particular the sequence of rendered strings, repeats identically
with that period. -/
theorem cycle_periodic (texts : List (List Char)) (t : Nat) (h : t < texts.length) :
    (step texts)^[cycleSteps texts t] (typingStart t) = typingStart (nextIndex texts t)
    ∧ (step texts)^[multiCycleSteps texts texts.length t] (typingStart t) = typingStart t
    ∧ ∀ m, (step texts)^[m + multiCycleSteps texts texts.length t] (typingStart t)
          = (step texts)^[m] (typingStart t) := by
  have h0 : 0 < texts.length := by omega
  have hper : (step texts)^[multiCycleSteps texts texts.length t] (typingStart t)
      = typingStart t := by
    rw [multi_cycle texts texts.length t h,
        nextIndex_iterate texts h0 texts.length t h,
        Nat.add_mod_right, Nat.mod_eq_of_lt h]
  exact ⟨one_cycle texts t h, hper,
    fun m => by rw [Function.iterate_add_apply, hper]⟩

/-- Witness for C6 over the single-entry playlist starting at index 0. -/
theorem cycle_periodic_witness :
    0 < texts1.length
    ∧ ((step texts1)^[cycleSteps texts1 0] (typingStart 0)
          = typingStart (nextIndex texts1 0)
       ∧ (step texts1)^[multiCycleSteps texts1 texts1.length 0] (typingStart 0)
          = typingStart 0
       ∧ ∀ m, (step texts1)^[m + multiCycleSteps texts1 texts1.length 0] (typingStart 0)
          = (step texts1)^[m] (typingStart 0)) :=
  ⟨by decide, cycle_periodic texts1 0 (by decide)⟩

/-- C9: fields are validated against minimum lengths (after trimming)
and the email-shape pattern; if and only if all fields pass, submission
is simulated with a fixed 2-second delay and then a success banner is
shown that auto-dismisses after 5 seconds; if any field fails, an error
banner (also auto-dismissing after 5 seconds) is shown and no
submission is simulated. -/
theorem form_submission_spec (d : ContactData) :
    validateField FieldName.name d.name = decide (2 ≤ (trimJS d.name).length)
    ∧ validateField FieldName.email d.email = emailMatches (trimJS d.email)
    ∧ validateField FieldName.subject d.subject = decide (5 ≤ (trimJS d.subject).length)
    ∧ validateField FieldName.message d.message = decide (10 ≤ (trimJS d.message).length)
    ∧ (allFieldsValid d = true →
        handleFormSubmission d =
          ⟨true, some 2000, ⟨NotifType.success, 5000⟩⟩)
    ∧ (allFieldsValid d = false →
        handleFormSubmission d =
          ⟨false, none, ⟨NotifType.error, 5000⟩⟩)
    ∧ ((handleFormSubmission d).submitted = true ↔ allFieldsValid d = true) := by
  refine ⟨?_, ?_, ?_, ?_, ?_, ?_, ?_⟩
  · unfold validateField validationRules
    rcases Nat.lt_or_ge (trimJS d.name).length 2 with h | h
    · simp [h]
    · simp [h, Nat.not_lt.mpr h]
  · unfold validateField validationRules
    cases hp : emailMatches (trimJS d.email) <;> simp [hp]
  · unfold validateField validationRules
    rcases Nat.lt_or_ge (trimJS d.subject).length 5 with h | h
    · simp [h]
    · simp [h, Nat.not_lt.mpr h]
  · unfold validateField validationRules
    rcases Nat.lt_or_ge (trimJS d.message).length 10 with h | h
    · simp [h]
    · simp [h, Nat.not_lt.mpr h]
  · intro h
    simp [handleFormSubmission, h, showNotification]
  · intro h
    simp [handleFormSubmission, h, showNotification]
  · unfold handleFormSubmission
    cases h : allFieldsValid d <;> simp [h, showNotification]

/-- Witness for C9 on a concrete submission with all fields valid. -/
theorem form_submission_spec_witness :
    allFieldsValid ⟨[ 'J', 'o'], [ 'a', '@', 'b', '.', 'c'],
        [ 'H', 'e', 'l', 'l', 'o'],
        [ 'H', 'e', 'l', 'l', 'o', ' ', 'w', 'o', 'r', 'l', 'd', '!']⟩ = true
    ∧ handleFormSubmission ⟨[ 'J', 'o'], [ 'a', '@', 'b', '.', 'c'],
        [ 'H', 'e', 'l', 'l', 'o'],
        [ 'H', 'e', 'l', 'l', 'o', ' ', 'w', 'o', 'r', 'l', 'd', '!']⟩ =
        ⟨true, some 2000, ⟨NotifType.success, 5000⟩⟩ :=
  ⟨by decide,
   ((form_submission_spec ⟨[ 'J', 'o'], [ 'a', '@', 'b', '.', 'c'],
        [ 'H', 'e', 'l', 'l', 'o'],
        [ 'H', 'e', 'l', 'l', 'o', ' ', 'w', 'o', 'r', 'l', 'd', '!']⟩).2.2.2.2.1 (by decide))⟩

end Portfolio
